import Mathlib

/-!
Shallow embedding of the mm_manager binary table codec
(src/mm_util.c, src/mm_convert_card_mtr2_to_mtr1.c, src/src/mm_carrier.c).

Bytes are modelled as `Nat` values below 256, byte buffers as `List Nat`.
Machine-integer overflow is made explicit with `% 256` wherever the C code
relies on `uint8_t` arithmetic.
-/

/-! Section: Checksum engine: crc16 (src/mm_util.c lines 23-37) -/

/-- One round of the CRC-16 loop body from src/mm_util.c:
`crc = crc & 1 ? (crc >> 1) ^ POLY : crc >> 1` with `POLY = 0xa001`. -/
def crc16_round (crc : Nat) : Nat :=
  if crc % 2 = 1 then (crc / 2) ^^^ 0xa001 else crc / 2

/-- Function `crc16` from src/mm_util.c: per byte, XOR the byte into the accumulator and
then apply the eight unrolled round lines of the source. -/
def crc16 : Nat → List Nat → Nat
  | crc, [] => crc
  | crc, b :: rest =>
      crc16 (crc16_round (crc16_round (crc16_round (crc16_round
             (crc16_round (crc16_round (crc16_round (crc16_round (crc ^^^ b))))))))) rest

/-- The checksum as the spec words it: for each byte, XOR into the running
accumulator, then apply eight rounds (stated with `Function.iterate`). -/
def crc16_spec (seed : Nat) (bs : List Nat) : Nat :=
  bs.foldl (fun c b => crc16_round^[8] (c ^^^ b)) seed

/-! Section: Call type labels (src/mm_util.c lines 162-218) -/

/-- Table `call_type_str` from src/mm_util.c: call type of the low nibble of CALLTYP. -/
def call_type_str : List String :=
  ["Incoming", "Unanswered", "Abandoned", "Local", "Intra-LATA", "Inter-LATA",
   "Internatonal", "Operator", "Zero+", "1-800", "Directory Assistance",
   "Denied", "Unassigned", "Unassigned2", "e-Purse", "Unknown"]

/-- Table `pmt_type_str` from src/mm_util.c: payment type of the high nibble of CALLTYP. -/
def pmt_type_str : List String :=
  ["Unused0", "Unused1", "No Charge", "Coin", "Credit Card", "Calling Card",
   "Cash Card", "Inmate", "Mondex", "Visa Stored Value", "Smart City", "Proton",
   "UndefinedC", "UndefinedD", "UndefinedE", "UndefinedF"]

/-- Function `call_type_to_string` from src/mm_util.c: looks up the low-nibble call-type
label and the high-nibble payment-type label, fails (returns `none`, writing
nothing) when `len_call_type + len_pmt_type + 1 > string_buf_len`, otherwise
produces `sprintf("%s %s", ...)`. -/
def call_type_to_string (call_type : Nat) (string_buf_len : Nat) : Option String :=
  if (call_type_str.getD (call_type % 16) "").length +
       (pmt_type_str.getD (call_type / 16) "").length + 1 > string_buf_len then none
  else some (call_type_str.getD (call_type % 16) "" ++ " " ++
             pmt_type_str.getD (call_type / 16) "")

/-! Section: Nibble codecs (src/mm_util.c lines 78-159) -/

/-- The nibble stream of a byte buffer, high nibble first, as the codec loops
read it (`num_buf[i] >> 4` then `num_buf[i] & 0x0f`). -/
def byteNibbles : List Nat → List Nat
  | [] => []
  | b :: rest => b / 16 :: b % 16 :: byteNibbles rest

/-- Function `phone_num_to_string` from src/mm_util.c as the list of character codes it
emits. `j` is the count of characters already emitted; the source breaks on a
nibble equal to 0xE before emitting, emits `digit + '0'`, and only then stops
when `j >= string_buf_len - 1` (an `int` comparison, rendered here as
`string_buf_len <= j + 1`). -/
def phone_num_to_string (string_buf_len : Nat) : List Nat → Nat → List Nat
  | [], _ => []
  | b :: rest, j =>
    if b / 16 = 14 then []
    else (b / 16 + 48) ::
      (if string_buf_len ≤ j + 2 then []
       else if b % 16 = 14 then []
       else (b % 16 + 48) ::
         (if string_buf_len ≤ j + 3 then []
          else phone_num_to_string string_buf_len rest (j + 2)))

/-- The nibbles before the first 0xE end marker. -/
def nibblesUntilE : List Nat → List Nat
  | [] => []
  | d :: rest => if d = 14 then [] else d :: nibblesUntilE rest

/-- The decode rule exactly as claim C3 words it: map every nibble before the
first 0xE to `'0' + v` and emit at most `string_buf_len - 1` characters. -/
def phone_num_claimed (string_buf_len : Nat) (buf : List Nat) : List Nat :=
  ((nibblesUntilE (byteNibbles buf)).map (fun d => d + 48)).take (string_buf_len - 1)

/-- Table `pn_lut` from src/mm_util.c, as byte values:
`{ '\0', '1'..'9', '0', 'B', 'C', 'D', 'E', 'F' }`. -/
def pn_lut : List Nat := [0, 49, 50, 51, 52, 53, 54, 55, 56, 57, 48, 66, 67, 68, 69, 70]

/-- Function `callscrn_num_to_string` from src/mm_util.c as the list of character codes
it emits: every nibble goes through `pn_lut` (no terminator check), and the
loop stops only when `j >= string_buf_len - 1` after an emit, or when the
input buffer is exhausted. -/
def callscrn_num_to_string (string_buf_len : Nat) : List Nat → Nat → List Nat
  | [], _ => []
  | b :: rest, j =>
    pn_lut.getD (b / 16) 0 ::
      (if string_buf_len ≤ j + 2 then []
       else pn_lut.getD (b % 16) 0 ::
         (if string_buf_len ≤ j + 3 then []
          else callscrn_num_to_string string_buf_len rest (j + 2)))

/-- Number of characters `callscrn_num_to_string` emits: all nibbles when they
fit, otherwise `string_buf_len - 1` characters — except that the capacity test
runs only after an emit, so a nonempty input always yields at least one. -/
def callscrn_stop (buf : List Nat) (string_buf_len : Nat) : Nat :=
  if buf = [] then 0 else min (2 * buf.length) (max (string_buf_len - 1) 1)

/-! Section: string_to_bcd_a (src/mm_util.c lines 104-130)

The C loop index `i` is a `uint8_t`: it wraps at 256, so the loop is modelled
with explicit fuel. The state is the pair (i, buffer). -/

/-- High-nibble store of `string_to_bcd_a`:
`buffer[i>>1] = (c == '0') ? 0xa0 : (c - '0') << 4`, stored into a `uint8_t`. -/
def bcd_hi (c : Nat) : Nat := if c = 48 then 0xa0 else ((c - 48) * 16) % 256

/-- Low-nibble OR-update of `string_to_bcd_a`:
`buffer[i>>1] |= (c == '0') ? 0x0a : (c - '0')`, reduced into a `uint8_t`. -/
def bcd_lo (b c : Nat) : Nat := if c = 48 then b ||| 0x0a else b ||| ((c - 48) % 256)

/-- One iteration of the `string_to_bcd_a` loop body at state `(i, buffer)`;
the index increment wraps like the `uint8_t` counter of the source. -/
def bcdStep (s : List Nat) (st : Nat × List Nat) : Nat × List Nat :=
  let i := st.1
  let c := s.getD i 0
  let buf :=
    if i % 2 = 0 then st.2.set (i / 2) (bcd_hi c)
    else st.2.set (i / 2) (bcd_lo (st.2.getD (i / 2) 0) c)
  ((i + 1) % 256, buf)

/-- The `string_to_bcd_a` loop: run while `i < strlen && i < buff_len * 2`,
with explicit fuel since the wrapping counter need not terminate. -/
def bcdRun (s : List Nat) (n : Nat) : Nat → Nat × List Nat → Option (Nat × List Nat)
  | 0, _ => none
  | fuel + 1, st =>
    if st.1 < s.length ∧ st.1 < 2 * n then bcdRun s n fuel (bcdStep s st) else some st

/-- Function `string_to_bcd_a` from src/mm_util.c: `memset(buffer, 0, buff_len)` then the
packing loop; `some (i, buffer)` is the returned count and the output buffer,
`none` means the fuel ran out before the loop exited. -/
def string_to_bcd_a (s : List Nat) (n : Nat) (fuel : Nat) : Option (Nat × List Nat) :=
  bcdRun s n fuel (0, List.replicate n 0)

/-- Value of output byte `j` after the first `k` input characters have been
consumed: both nibbles once `2j+1 < k`, only the high nibble once `2j < k`,
otherwise still the `memset` zero. -/
def bcdByteAt (s : List Nat) (k j : Nat) : Nat :=
  if 2 * j + 1 < k then bcd_lo (bcd_hi (s.getD (2 * j) 0)) (s.getD (2 * j + 1) 0)
  else if 2 * j < k then bcd_hi (s.getD (2 * j) 0)
  else 0

/-- The whole output buffer after `k` consumed characters. -/
def bcdBufferAt (s : List Nat) (n k : Nat) : List Nat :=
  (List.range n).map (bcdByteAt s k)

/-! Section: Record validation and the carrier table (src/src/mm_carrier.c)

`mm_manager.h` is not under src/, so the validator and the carrier table
layout are modelled from the spec. -/

/-- Result of table-size validation. -/
inductive TableValidation
  | ok
  | sizeMismatch
deriving DecidableEq

/-- Modelled from the spec: `mm_validate_table_fsize` is declared in
mm_manager.h but defined outside src/. Per spec section 4.4, the validator
compares the expected size exactly (not ≥) against the observed input size
before any parsing. -/
def mm_validate_table_fsize (expected observed : Nat) : TableValidation :=
  if observed = expected then TableValidation.ok else TableValidation.sizeMismatch

/-- Modelled from the spec: `DEFAULT_CARRIERS_MAX` is defined in mm_manager.h
(not under src/); the default-carrier prologue has one byte per label of
`str_default_carrier`, which holds 9 labels. -/
def DEFAULT_CARRIERS_MAX : Nat := 9

/-- Size of one carrier entry per the spec layout (section 6):
ref 1 + num 2 + valid_cards 4 + prompt 20 + cb2 1 + cb 1 + timer 2 + intl 1 +
call_entry 1 = 33 bytes. -/
def CARRIER_ENTRY_SIZE : Nat := 33

/-- Modelled from the spec: `sizeof(dlog_mt_carrier_table_t)` with the struct
from mm_manager.h (not under src/): one leading identifier/tag byte, the
default-carrier prologue, `NC` carrier entries, then `S` spare bytes. `NC`
(`CARRIER_TABLE_MAX_CARRIERS`) and `S` are not fixed by the spec and stay
parameters. -/
def carrier_table_sizeof (NC S : Nat) : Nat :=
  1 + DEFAULT_CARRIERS_MAX + CARRIER_ENTRY_SIZE * NC + S

/-- The size the carrier tool hands to the validator
(src/src/mm_carrier.c line 243): `sizeof(dlog_mt_carrier_table_t) - 1`. -/
def carrier_expected_size (NC S : Nat) : Nat := carrier_table_sizeof NC S - 1

/-- The load of src/src/mm_carrier.c lines 249-250: the table comes from
`calloc`, and `fread` fills it starting at `((uint8_t*)ptable) + 1`, so the
in-memory record is a zero identifier byte followed by the raw input. -/
def carrier_load (input : List Nat) : List Nat := 0 :: input

/-- One carrier table entry; field layout modelled from the spec (section 6),
since mm_manager.h is not under src/. Field names follow the accesses in
src/src/mm_carrier.c. -/
structure carrier_table_entry where
  carrier_ref : Nat
  carrier_num : Nat
  valid_cards : Nat
  display_prompt : List Nat
  control_byte2 : Nat
  control_byte : Nat
  fgb_timer : Nat
  international_accept_flags : Nat
  call_entry : Nat

/-- The per-entry reporting decision of src/src/mm_carrier.c lines 272-283:
a printable leading prompt byte is rendered as the 20 prompt bytes; otherwise
an entry with `carrier_ref == 0 && call_entry == 0` is skipped (`none`), and
any other entry is rendered as 20 spaces. -/
def carrier_report_prompt (e : carrier_table_entry) : Option (List Nat) :=
  if 32 ≤ e.display_prompt.getD 0 0 then some (e.display_prompt.take 20)
  else if e.carrier_ref = 0 ∧ e.call_entry = 0 then none
  else some (List.replicate 20 32)

/-- Step of src/src/mm_carrier.c lines 319-321: `ptable->defaults[i] = 0` for every
default-carrier byte. Table offsets: byte 0 is the tag byte, the defaults
occupy offsets 1..DEFAULT_CARRIERS_MAX. -/
def carrier_zero_defaults (t : List Nat) : List Nat :=
  t.take 1 ++ List.replicate DEFAULT_CARRIERS_MAX 0 ++ t.drop (1 + DEFAULT_CARRIERS_MAX)

/-- Step of src/src/mm_carrier.c line 323: `memcpy(ptable->carrier, new_carriers,
sizeof(new_carriers))`, splicing the serialized `new_carriers` bytes over the
start of the carrier-entry region (table offset 1 + DEFAULT_CARRIERS_MAX). -/
def carrier_set_new_carriers (newBytes t : List Nat) : List Nat :=
  t.take (1 + DEFAULT_CARRIERS_MAX) ++ newBytes ++
    t.drop (1 + DEFAULT_CARRIERS_MAX + newBytes.length)

/-- The bytes src/src/mm_carrier.c line 329 writes out: the record after the
default bytes were zeroed and the new carriers spliced in, minus the leading
tag byte (`fwrite(load_buffer, sizeof(dlog_mt_carrier_table_t) - 1, 1, ...)`). -/
def carrier_main_written (newBytes input : List Nat) : List Nat :=
  (carrier_set_new_carriers newBytes (carrier_zero_defaults (carrier_load input))).drop 1

/-! Section: Card table revision converter (src/mm_convert_card_mtr2_to_mtr1.c) -/

/-- Value of `sizeof(pcard_mtr1)` in src/mm_convert_card_mtr2_to_mtr1.c line 71:
`pcard_mtr1` is a `card_entry_mtr1_t *`, so this is the size of the POINTER
variable — 8 on an LP64 build — not the size of the entry struct. -/
def PTR_SIZE : Nat := 8

/-- The per-entry conversion the code performs (line 71): the target entry of
`m1 = sizeof(card_entry_mtr1_t)` bytes starts as `calloc` zeros, and
`memcpy_s(pcard_mtr1, sizeof(pcard_mtr1), pcard_mtr2, sizeof(pcard_mtr1))`
copies only `PTR_SIZE` bytes from the start of the source entry.
(mm_card.h is not under src/; the spec fixes only that the source MTR2 entry
is at least as large as the target MTR1 entry, so `m1` stays a parameter,
with `8 ≤ m1 ≤ src.length` assumed in the theorems.) -/
def convert_card_entry (m1 : Nat) (src : List Nat) : List Nat :=
  src.take PTR_SIZE ++ List.replicate (m1 - PTR_SIZE) 0

/-- The per-entry conversion claim C1 describes (and the source comment
`/* Copy the card entry */` intends): copy the first `m1` source bytes,
zero-fill anything the copy does not cover. -/
def convert_card_entry_claimed (m1 : Nat) (src : List Nat) : List Nat :=
  src.take m1 ++ List.replicate (m1 - src.length) 0

/-! Section: Theorems -/

/-! Section: Helper lemmas -/

theorem crc16_cons (seed b : Nat) (rest : List Nat) :
    crc16 seed (b :: rest) = crc16 (crc16_round^[8] (seed ^^^ b)) rest := rfl

theorem crc16_round_lt (crc : Nat) (h : crc < 65536) : crc16_round crc < 65536 := by
  unfold crc16_round
  split
  · have h1 : crc / 2 < 2 ^ 16 := by omega
    have h2 : (0xa001 : Nat) < 2 ^ 16 := by norm_num
    have := Nat.xor_lt_two_pow h1 h2
    simpa using this
  · omega

theorem crc16_eq_spec (seed : Nat) (bs : List Nat) : crc16 seed bs = crc16_spec seed bs := by
  induction bs generalizing seed with
  | nil => rfl
  | cons b rest ih =>
    rw [crc16_cons, ih]
    rfl

theorem crc16_lt (seed : Nat) (bs : List Nat) (hs : seed < 65536)
    (hb : ∀ b ∈ bs, b < 256) : crc16 seed bs < 65536 := by
  induction bs generalizing seed with
  | nil => exact hs
  | cons b rest ih =>
    rw [crc16_cons]
    apply ih
    · have hxor : seed ^^^ b < 65536 := by
        have h1 : seed < 2 ^ 16 := hs
        have h2 : b < 2 ^ 16 := by
          have := hb b (List.mem_cons_self b rest)
          omega
        have := Nat.xor_lt_two_pow h1 h2
        simpa using this
      show crc16_round (crc16_round (crc16_round (crc16_round (crc16_round
        (crc16_round (crc16_round (crc16_round (seed ^^^ b)))))))) < 65536
      exact crc16_round_lt _ (crc16_round_lt _ (crc16_round_lt _ (crc16_round_lt _
        (crc16_round_lt _ (crc16_round_lt _ (crc16_round_lt _ (crc16_round_lt _ hxor)))))))
    · intro x hx
      exact hb x (List.mem_cons_of_mem b hx)

/-! Section: C6 -/

/-- C6: `crc16` computes the reflected CRC-16 with polynomial 0xA001 exactly as
the spec describes (XOR the byte into the accumulator, then eight shift/XOR
rounds), it is deterministic, and for a 16-bit seed and byte input it stays a
16-bit value (total, no failure mode). -/
theorem C6_crc16_correct :
    (∀ (seed : Nat) (bs : List Nat), crc16 seed bs = crc16_spec seed bs) ∧
    (∀ (seed : Nat) (bs : List Nat), seed < 65536 → (∀ b ∈ bs, b < 256) →
      crc16 seed bs < 65536) :=
  ⟨crc16_eq_spec, fun seed bs hs hb => crc16_lt seed bs hs hb⟩

/-- Witness for C6 at seed 0x1234 and bytes [0x01, 0x02]. -/
theorem C6_crc16_witness :
    crc16 4660 [1, 2] = crc16_spec 4660 [1, 2] ∧ crc16 4660 [1, 2] < 65536 :=
  ⟨C6_crc16_correct.1 4660 [1, 2],
   C6_crc16_correct.2 4660 [1, 2] (by norm_num) (by
    intro b hb
    simp only [List.mem_cons, List.not_mem_nil, or_false] at hb
    rcases hb with h | h <;> omega)⟩

/-! Section: C2 -/

/-- C2: `call_type_to_string` renders the low-nibble call-type label, one
space, and the high-nibble payment-type label; it returns `none` exactly when
the buffer is smaller than the two label lengths plus the one-character
separator (producing no output in that case, since the `sprintf` is never
reached); and for byte 0x43 it yields exactly "Local Credit Card" while a
16-byte buffer fails. -/
theorem C2_call_type_to_string_correct :
    (∀ (b len : Nat), b < 256 →
      ((call_type_to_string b len = none ↔
          len < (call_type_str.getD (b % 16) "").length +
                (pmt_type_str.getD (b / 16) "").length + 1) ∧
       (∀ s, call_type_to_string b len = some s →
          s = call_type_str.getD (b % 16) "" ++ " " ++ pmt_type_str.getD (b / 16) ""))) ∧
    call_type_to_string 0x43 17 = some "Local Credit Card" ∧
    call_type_to_string 0x43 16 = none := by
  refine ⟨fun b len _ => ⟨?_, ?_⟩, by decide, by decide⟩
  · unfold call_type_to_string
    constructor
    · intro hn
      by_contra hlt
      rw [if_neg hlt] at hn
      exact absurd hn (by simp)
    · intro hlt
      rw [if_pos hlt]
  · intro s hs
    unfold call_type_to_string at hs
    split at hs
    · exact absurd hs (by simp)
    · exact (Option.some_inj.mp hs).symm

/-- Witness for C2 at byte 0x43 and buffer length 17. -/
theorem C2_call_type_witness :
    (call_type_to_string 67 17 = none ↔
      17 < (call_type_str.getD 3 "").length + (pmt_type_str.getD 4 "").length + 1) ∧
    (∀ s, call_type_to_string 67 17 = some s →
      s = call_type_str.getD 3 "" ++ " " ++ pmt_type_str.getD 4 "") :=
  (C2_call_type_to_string_correct.1 67 17 (by norm_num))

/-! Section: C1 -/

/-- C1 (code bug): because `memcpy_s` is called with `sizeof(pcard_mtr1)` —
the size of the pointer, `PTR_SIZE = 8` — instead of the MTR1 entry size `m1`,
byte 8 of every converted entry is always zero, and whenever the source entry
has a nonzero byte at offset 8 (with `8 < m1 ≤ src.length`), the produced
entry differs from the full-prefix copy the claim (and the source comment
"Copy the card entry") describes. -/
theorem C1_convert_drops_entry_tail :
    ∀ (m1 : Nat) (src : List Nat), 8 < m1 → m1 ≤ src.length → src.getD 8 0 ≠ 0 →
      (convert_card_entry m1 src).getD 8 0 = 0 ∧
      convert_card_entry m1 src ≠ convert_card_entry_claimed m1 src := by
  intro m1 src hm hlen hb
  have htake : (src.take PTR_SIZE).length = 8 := by
    rw [List.length_take]
    show min 8 src.length = 8
    omega
  have hcode : (convert_card_entry m1 src).getD 8 0 = 0 := by
    unfold convert_card_entry
    rw [List.getD_eq_getElem?_getD, List.getElem?_append_right htake.le, htake,
        List.getElem?_replicate]
    split <;> rfl
  refine ⟨hcode, fun heq => hb ?_⟩
  have hclaim : (convert_card_entry_claimed m1 src).getD 8 0 = src.getD 8 0 := by
    unfold convert_card_entry_claimed
    have h8 : 8 < (src.take m1).length := by
      rw [List.length_take]
      omega
    rw [List.getD_eq_getElem?_getD, List.getElem?_append_left h8,
        List.getElem?_take_of_lt hm, ← List.getD_eq_getElem?_getD]
  rw [← hclaim, ← heq, hcode]

/-- Witness for C1: MTR1 entry size 9, source entry of nine 0x01 bytes. -/
theorem C1_convert_witness :
    (convert_card_entry 9 (List.replicate 9 1)).getD 8 0 = 0 ∧
    convert_card_entry 9 (List.replicate 9 1) ≠
      convert_card_entry_claimed 9 (List.replicate 9 1) :=
  C1_convert_drops_entry_tail 9 (List.replicate 9 1) (by norm_num) (by simp) (by decide)

/-! Section: C7 -/

/-- C7: the carrier tool validates size before parsing against exactly
`sizeof(dlog_mt_carrier_table_t) - 1` (the record size minus the leading
identifier/tag byte), compared for equality: one byte less or more fails with
SizeMismatch, the exact size succeeds, and the payload is then read starting
one byte into the record. (`mm_validate_table_fsize` and the table struct are
modelled from the spec; their definitions are not under src/.) -/
theorem C7_carrier_validate_exact :
    ∀ NC S : Nat,
      carrier_expected_size NC S = carrier_table_sizeof NC S - 1 ∧
      mm_validate_table_fsize (carrier_expected_size NC S)
        (carrier_expected_size NC S - 1) = TableValidation.sizeMismatch ∧
      mm_validate_table_fsize (carrier_expected_size NC S)
        (carrier_expected_size NC S + 1) = TableValidation.sizeMismatch ∧
      mm_validate_table_fsize (carrier_expected_size NC S)
        (carrier_expected_size NC S) = TableValidation.ok ∧
      ∀ (input : List Nat) (i : Nat), i < input.length →
        (carrier_load input).getD (i + 1) 0 = input.getD i 0 := by
  intro NC S
  have hpos : 1 ≤ carrier_expected_size NC S := by
    unfold carrier_expected_size carrier_table_sizeof DEFAULT_CARRIERS_MAX CARRIER_ENTRY_SIZE
    omega
  refine ⟨rfl, ?_, ?_, ?_, ?_⟩
  · unfold mm_validate_table_fsize
    rw [if_neg (by omega)]
  · unfold mm_validate_table_fsize
    rw [if_neg (by omega)]
  · unfold mm_validate_table_fsize
    rw [if_pos rfl]
  · intro input i _
    simp [carrier_load]

/-- Witness for C7 at NC = 2 carriers, S = 3 spare bytes, input [7, 8], i = 1. -/
theorem C7_carrier_validate_witness :
    mm_validate_table_fsize (carrier_expected_size 2 3)
      (carrier_expected_size 2 3 - 1) = TableValidation.sizeMismatch ∧
    mm_validate_table_fsize (carrier_expected_size 2 3)
      (carrier_expected_size 2 3 + 1) = TableValidation.sizeMismatch ∧
    mm_validate_table_fsize (carrier_expected_size 2 3)
      (carrier_expected_size 2 3) = TableValidation.ok ∧
    (carrier_load [7, 8]).getD 2 0 = [7, 8].getD 1 0 :=
  ⟨(C7_carrier_validate_exact 2 3).2.1, (C7_carrier_validate_exact 2 3).2.2.1,
   (C7_carrier_validate_exact 2 3).2.2.2.1,
   (C7_carrier_validate_exact 2 3).2.2.2.2 [7, 8] 1 (by norm_num)⟩

/-! Section: C8 -/

/-- C8: during carrier reporting, an entry whose leading display-prompt byte is
below 0x20 is skipped exactly when its carrier_ref and call_entry are both 0;
otherwise it is still reported, with the prompt rendered as 20 spaces, and no
such entry makes reporting fail (the decision function is total). -/
theorem C8_carrier_skip_rule :
    ∀ e : carrier_table_entry, e.display_prompt.getD 0 0 < 32 →
      (carrier_report_prompt e = none ↔ e.carrier_ref = 0 ∧ e.call_entry = 0) ∧
      (¬(e.carrier_ref = 0 ∧ e.call_entry = 0) →
        carrier_report_prompt e = some (List.replicate 20 32)) := by
  intro e h
  unfold carrier_report_prompt
  rw [if_neg (by omega)]
  constructor
  · constructor
    · intro hn
      by_contra hc
      rw [if_neg hc] at hn
      exact absurd hn (by simp)
    · intro hc
      rw [if_pos hc]
  · intro hc
    rw [if_neg hc]

/-- Witness for C8: an all-zero entry with prompt byte 0 is skipped. -/
theorem C8_carrier_skip_witness :
    carrier_report_prompt ⟨0, 0, 0, [0], 0, 0, 0, 0, 0⟩ = none :=
  ((C8_carrier_skip_rule ⟨0, 0, 0, [0], 0, 0, 0, 0, 0⟩ (by norm_num)).1).mpr ⟨rfl, rfl⟩

/-! Section: C3 -/

theorem phone_loop_eq (len : Nat) (buf : List Nat) :
    ∀ j : Nat, j + 1 < len →
      phone_num_to_string len buf j =
        ((nibblesUntilE (byteNibbles buf)).map (fun d => d + 48)).take (len - 1 - j) := by
  induction buf with
  | nil => intro j hj; simp [phone_num_to_string, byteNibbles, nibblesUntilE]
  | cons b rest ih =>
    intro j hj
    have hs1 : len - 1 - j = (len - 2 - j) + 1 := by omega
    by_cases h1 : b / 16 = 14
    · simp [phone_num_to_string, byteNibbles, nibblesUntilE, h1]
    · by_cases h2 : len ≤ j + 2
      · have hz : len - 2 - j = 0 := by omega
        simp [phone_num_to_string, byteNibbles, nibblesUntilE, h1, h2, hs1, hz]
      · by_cases h3 : b % 16 = 14
        · simp [phone_num_to_string, byteNibbles, nibblesUntilE, h1, h2, h3, hs1]
        · have hs2 : len - 2 - j = (len - 3 - j) + 1 := by omega
          by_cases h4 : len ≤ j + 3
          · have hz : len - 3 - j = 0 := by omega
            simp [phone_num_to_string, byteNibbles, nibblesUntilE, h1, h2, h3, h4, hs1, hs2, hz]
          · have ihr := ih (j + 2) (by omega)
            have hsub : len - 1 - (j + 2) = len - 3 - j := by omega
            rw [hsub] at ihr
            simp [phone_num_to_string, byteNibbles, nibblesUntilE, h1, h2, h3, h4, hs1, hs2, ihr]

/-- C3 counterexample: with output capacity 1 and input byte 0x11, the code
emits one character ("1") even though capacity minus one is zero, so the
claimed exact stopping rule fails. -/
theorem C3_counterexample : phone_num_to_string 1 [17] 0 ≠ phone_num_claimed 1 [17] := by
  decide

/-- C3 (amended): for every input nibble buffer and every output capacity of at
least 2, `phone_num_to_string` reads nibbles high-then-low, maps nibble v to
'0'+v with no special case for 0xA, and stops exactly at the first 0xE nibble
or once capacity-minus-one characters have been emitted, whichever comes first.
(For capacity 0 or 1 the capacity check runs only after a first character has
been emitted, so a nonempty buffer not starting with 0xE still yields one
character.) -/
theorem C3_phone_decode_amended :
    ∀ (buf : List Nat) (string_buf_len : Nat), 2 ≤ string_buf_len →
      phone_num_to_string string_buf_len buf 0 = phone_num_claimed string_buf_len buf := by
  intro buf len hlen
  have h := phone_loop_eq len buf 0 (by omega)
  simpa [phone_num_claimed] using h

/-- Witness for C3 at capacity 5 and bytes [0x12, 0xE1] (digits 1, 2, then the
0xE terminator). -/
theorem C3_phone_witness :
    2 ≤ 5 ∧ phone_num_to_string 5 [18, 225] 0 = phone_num_claimed 5 [18, 225] :=
  ⟨by norm_num, C3_phone_decode_amended [18, 225] 5 (by norm_num)⟩

/-! Section: C5 -/

theorem byteNibbles_length (l : List Nat) : (byteNibbles l).length = 2 * l.length := by
  induction l with
  | nil => rfl
  | cons b rest ih =>
    simp only [byteNibbles, List.length_cons, ih]
    omega

theorem callscrn_loop_eq (len : Nat) (buf : List Nat) :
    ∀ j : Nat, j + 1 < len →
      callscrn_num_to_string len buf j =
        ((byteNibbles buf).map (fun d => pn_lut.getD d 0)).take (len - 1 - j) := by
  induction buf with
  | nil => intro j hj; simp [callscrn_num_to_string, byteNibbles]
  | cons b rest ih =>
    intro j hj
    have hs1 : len - 1 - j = (len - 2 - j) + 1 := by omega
    by_cases h2 : len ≤ j + 2
    · have hz : len - 2 - j = 0 := by omega
      simp [callscrn_num_to_string, byteNibbles, h2, hs1, hz]
    · have hs2 : len - 2 - j = (len - 3 - j) + 1 := by omega
      by_cases h4 : len ≤ j + 3
      · have hz : len - 3 - j = 0 := by omega
        simp [callscrn_num_to_string, byteNibbles, h2, h4, hs1, hs2, hz]
      · have ihr := ih (j + 2) (by omega)
        have hsub : len - 1 - (j + 2) = len - 3 - j := by omega
        rw [hsub] at ihr
        simp [callscrn_num_to_string, byteNibbles, h2, h4, hs1, hs2, ihr]

/-- C5: `pn_lut` has exactly 16 entries, nibble 0 maps to NUL, nibble 10 to
'0', nibble 14 to 'E'; and `callscrn_num_to_string` maps every nibble through
the table with no early-terminator special case: it emits
`min (2 * buf.length) (capacity - 1)` characters (one character even for
capacity ≤ 1 on nonempty input, since the capacity test runs after an emit),
so it stops only at input-buffer exhaustion or at the capacity check. -/
theorem C5_callscrn_correct :
    pn_lut.length = 16 ∧ pn_lut.getD 0 0 = 0 ∧ pn_lut.getD 10 0 = 48 ∧
    pn_lut.getD 14 0 = 69 ∧
    ∀ (buf : List Nat) (len : Nat), (∀ b ∈ buf, b < 256) →
      callscrn_num_to_string len buf 0 =
        ((byteNibbles buf).map (fun d => pn_lut.getD d 0)).take (callscrn_stop buf len) ∧
      (callscrn_stop buf len = 2 * buf.length ∨ len ≤ callscrn_stop buf len + 1) := by
  refine ⟨by decide, by decide, by decide, by decide, fun buf len _ => ⟨?_, ?_⟩⟩
  · match buf, len with
    | [], len => simp [callscrn_num_to_string, callscrn_stop]
    | b :: rest, 0 =>
      have h1 : callscrn_stop (b :: rest) 0 = 1 := by
        simp only [callscrn_stop, if_neg (List.cons_ne_nil b rest), List.length_cons]
        omega
      rw [h1]
      show pn_lut.getD (b / 16) 0 :: [] = _
      simp [byteNibbles]
    | b :: rest, 1 =>
      have h1 : callscrn_stop (b :: rest) 1 = 1 := by
        simp only [callscrn_stop, if_neg (List.cons_ne_nil b rest), List.length_cons]
        omega
      rw [h1]
      show pn_lut.getD (b / 16) 0 :: [] = _
      simp [byteNibbles]
    | b :: rest, (n + 2) =>
      rw [callscrn_loop_eq (n + 2) (b :: rest) 0 (by omega)]
      apply List.take_eq_take.mpr
      simp only [List.length_map, byteNibbles_length, callscrn_stop,
        if_neg (List.cons_ne_nil b rest), List.length_cons]
      omega
  · by_cases hb : buf = []
    · subst hb
      simp [callscrn_stop]
    · simp only [callscrn_stop, if_neg hb]
      rcases Nat.le_total (2 * buf.length) (max (len - 1) 1) with h | h
      · left
        omega
      · right
        omega

/-- Witness for C5 at buffer [0x1A] (nibbles 1 and 10) and capacity 5. -/
theorem C5_callscrn_witness :
    callscrn_num_to_string 5 [26] 0 =
      ((byteNibbles [26]).map (fun d => pn_lut.getD d 0)).take (callscrn_stop [26] 5) ∧
    (callscrn_stop [26] 5 = 2 * List.length [26] ∨ 5 ≤ callscrn_stop [26] 5 + 1) :=
  C5_callscrn_correct.2.2.2.2 [26] 5 (by
    intro b hb
    simp only [List.mem_singleton] at hb
    omega)

/-! Section: C4 and C10 -/

theorem bcdBufferAt_zero (s : List Nat) (n : Nat) :
    bcdBufferAt s n 0 = List.replicate n 0 := by
  unfold bcdBufferAt bcdByteAt
  simp

theorem bcdBufferAt_getD (s : List Nat) (n k j : Nat) (hj : j < n) :
    (bcdBufferAt s n k).getD j 0 = bcdByteAt s k j := by
  unfold bcdBufferAt
  rw [List.getD_eq_getElem?_getD, List.getElem?_map, List.getElem?_range hj]
  rfl

theorem bcdStep_at (s : List Nat) (n k : Nat) (hk2 : k < 2 * n) :
    bcdStep s (k, bcdBufferAt s n k) = ((k + 1) % 256, bcdBufferAt s n (k + 1)) := by
  have hj : k / 2 < n := by omega
  unfold bcdStep
  by_cases hp : k % 2 = 0
  · simp only [hp, if_pos rfl, reduceIte]
    congr 1
    apply List.ext_getElem
    · simp [bcdBufferAt]
    · intro i h1 h2
      rw [List.getElem_set]
      simp only [bcdBufferAt, List.getElem_map, List.getElem_range] at h2 ⊢
      by_cases hi : k / 2 = i
      · rw [if_pos hi]
        have h2i : 2 * i = k := by omega
        unfold bcdByteAt
        rw [if_neg (by omega), if_pos (by omega), h2i]
      · rw [if_neg hi]
        unfold bcdByteAt
        split_ifs <;> first | rfl | omega
  · simp only [if_neg hp]
    rw [bcdBufferAt_getD s n k (k / 2) hj]
    have hcur : bcdByteAt s k (k / 2) = bcd_hi (s.getD (2 * (k / 2)) 0) := by
      unfold bcdByteAt
      rw [if_neg (by omega), if_pos (by omega)]
    rw [hcur]
    congr 1
    apply List.ext_getElem
    · simp [bcdBufferAt]
    · intro i h1 h2
      rw [List.getElem_set]
      simp only [bcdBufferAt, List.getElem_map, List.getElem_range] at h2 ⊢
      by_cases hi : k / 2 = i
      · rw [if_pos hi]
        have h2i : 2 * i + 1 = k := by omega
        unfold bcdByteAt
        rw [if_pos (by omega)]
        rw [show 2 * (k / 2) = 2 * i from by omega, h2i]
      · rw [if_neg hi]
        unfold bcdByteAt
        split_ifs <;> first | rfl | omega

theorem bcdRun_characterization (s : List Nat) (n : Nat)
    (h255 : min s.length (2 * n) ≤ 255) :
    ∀ fuel k : Nat, k ≤ min s.length (2 * n) → min s.length (2 * n) - k < fuel →
      bcdRun s n fuel (k, bcdBufferAt s n k) =
        some (min s.length (2 * n), bcdBufferAt s n (min s.length (2 * n))) := by
  intro fuel
  induction fuel with
  | zero => intro k hk hf; omega
  | succ fuel ih =>
    intro k hk hf
    by_cases hlt : k < min s.length (2 * n)
    · rw [bcdRun, if_pos ⟨by omega, by omega⟩, bcdStep_at s n k (by omega),
          Nat.mod_eq_of_lt (by omega : k + 1 < 256)]
      exact ih (k + 1) (by omega) (by omega)
    · have hk2 : k = min s.length (2 * n) := by omega
      subst hk2
      rw [bcdRun, if_neg (by omega)]

theorem bcdRun_never_exits (s : List Nat) (n : Nat) (hs : 256 ≤ s.length)
    (hn : 128 ≤ n) :
    ∀ (fuel : Nat) (st : Nat × List Nat), st.1 < 256 → bcdRun s n fuel st = none := by
  intro fuel
  induction fuel with
  | zero => intro st h; rfl
  | succ fuel ih =>
    intro st h
    rw [bcdRun, if_pos ⟨by omega, by omega⟩]
    apply ih
    show (st.1 + 1) % 256 < 256
    exact Nat.mod_lt _ (by norm_num)

/-- C4 counterexample: on a 256-character digit string with buff_len = 128 the
`uint8_t` loop index wraps before either bound can fail, so the loop never
exits: no amount of fuel makes `string_to_bcd_a` return, contradicting the
claim that encoding stops at the end of the input and returns the consumed
count for every digit string. -/
theorem C4_counterexample :
    ¬ ∃ (fuel : Nat) (st : Nat × List Nat),
        string_to_bcd_a (List.replicate 256 49) 128 fuel = some st := by
  rintro ⟨fuel, st, h⟩
  have hnone := bcdRun_never_exits (List.replicate 256 49) 128 (by rw [List.length_replicate]) (by norm_num)
      fuel (0, List.replicate 128 0) (by norm_num)
  rw [string_to_bcd_a, hnone] at h
  exact absurd h (by simp)

/-- C4 (amended): whenever `min (strlen, 2 * buff_len) ≤ 255` — i.e. whenever
the `uint8_t` loop counter cannot wrap, which is every case in which the C
function returns at all — `string_to_bcd_a` zero-fills the buffer, packs two
digits per byte high nibble first, encodes '0' as nibble 0xA in both
positions and any other digit c as c - '0', stops at input end or when all
`2 * buff_len` nibbles are used, and returns the count of characters
consumed; in particular encoding "0" gives byte 0xA0 and "12" gives 0x12.
For `strlen ≥ 256` with `buff_len ≥ 128` the loop never terminates. -/
theorem C4_string_to_bcd_amended :
    ∀ (s : List Nat) (n : Nat), min s.length (2 * n) ≤ 255 →
      string_to_bcd_a s n (min s.length (2 * n) + 1) =
        some (min s.length (2 * n), bcdBufferAt s n (min s.length (2 * n))) ∧
      string_to_bcd_a [48] 1 2 = some (1, [160]) ∧
      string_to_bcd_a [49, 50] 1 3 = some (2, [18]) := by
  intro s n h
  refine ⟨?_, by decide, by decide⟩
  unfold string_to_bcd_a
  rw [← bcdBufferAt_zero s n]
  exact bcdRun_characterization s n h (min s.length (2 * n) + 1) 0 (by omega) (by omega)

/-- Witness for C4 at s = "01" (bytes [48, 49]) and buff_len = 2. -/
theorem C4_string_to_bcd_witness :
    string_to_bcd_a [48, 49] 2 (min (List.length [48, 49]) (2 * 2) + 1) =
      some (min (List.length [48, 49]) (2 * 2),
            bcdBufferAt [48, 49] 2 (min (List.length [48, 49]) (2 * 2))) ∧
    string_to_bcd_a [48] 1 2 = some (1, [160]) ∧
    string_to_bcd_a [49, 50] 1 3 = some (2, [18]) :=
  C4_string_to_bcd_amended [48, 49] 2 (by decide)

/-- C10 counterexample: a 256-character string with buff_len = 129 — the
`uint8_t` loop index wraps forever and there is no return value at all, so the
claimed return value `min (strlen, 2 * n)` does not exist for this input. -/
theorem C10_counterexample :
    ¬ ∃ (fuel : Nat) (st : Nat × List Nat),
        string_to_bcd_a (List.replicate 256 50) 129 fuel = some st := by
  rintro ⟨fuel, st, h⟩
  have hnone := bcdRun_never_exits (List.replicate 256 50) 129 (by rw [List.length_replicate]) (by norm_num)
      fuel (0, List.replicate 129 0) (by norm_num)
  rw [string_to_bcd_a, hnone] at h
  exact absurd h (by simp)

/-- C10 (amended): whenever `min (strlen, 2 * n) ≤ 255` (every terminating
case), `string_to_bcd_a` returns exactly `min (strlen, 2 * n)` and every
output byte at an index at or beyond `ceil(return / 2)` is still zero. -/
theorem C10_bcd_return_zero_amended :
    ∀ (s : List Nat) (n : Nat), min s.length (2 * n) ≤ 255 →
      ∃ st : Nat × List Nat,
        string_to_bcd_a s n (min s.length (2 * n) + 1) = some st ∧
        st.1 = min s.length (2 * n) ∧ st.2.length = n ∧
        ∀ j, (st.1 + 1) / 2 ≤ j → j < n → st.2.getD j 0 = 0 := by
  intro s n h
  refine ⟨(min s.length (2 * n), bcdBufferAt s n (min s.length (2 * n))), ?_, rfl,
          by simp [bcdBufferAt], ?_⟩
  · unfold string_to_bcd_a
    rw [← bcdBufferAt_zero s n]
    exact bcdRun_characterization s n h (min s.length (2 * n) + 1) 0 (by omega) (by omega)
  · intro j hj1 hj2
    rw [bcdBufferAt_getD s n _ j hj2]
    unfold bcdByteAt
    rw [if_neg (by omega), if_neg (by omega)]

/-- Witness for C10 at s = "123" (bytes [49, 50, 51]) and n = 2. -/
theorem C10_bcd_witness :
    ∃ st : Nat × List Nat,
      string_to_bcd_a [49, 50, 51] 2 (min (List.length [49, 50, 51]) (2 * 2) + 1) =
        some st ∧
      st.1 = min (List.length [49, 50, 51]) (2 * 2) ∧ st.2.length = 2 ∧
      ∀ j, (st.1 + 1) / 2 ≤ j → j < 2 → st.2.getD j 0 = 0 :=
  C10_bcd_return_zero_amended [49, 50, 51] 2 (by decide)

/-! Section: C9 -/

/-- C9: every byte of the spare/reserved region (table offsets past the
default-carrier prologue and the carrier-entry array, i.e. payload offsets
`≥ DEFAULT_CARRIERS_MAX + CARRIER_ENTRY_SIZE * NC`) of the record the carrier
tool writes equals the corresponding byte of the loaded input record, even
though the default bytes are zeroed and the first ten carrier entries are
replaced before writing. -/
theorem C9_spare_preserved :
    ∀ (NC S : Nat) (newBytes input : List Nat) (p : Nat),
      newBytes.length = CARRIER_ENTRY_SIZE * 10 →
      10 ≤ NC →
      input.length = DEFAULT_CARRIERS_MAX + CARRIER_ENTRY_SIZE * NC + S →
      DEFAULT_CARRIERS_MAX + CARRIER_ENTRY_SIZE * NC ≤ p →
      (carrier_main_written newBytes input).getD p 0 = input.getD p 0 := by
  intro NC S newBytes input p hNB hNC hlen hp
  have hNB330 : newBytes.length = 330 := hNB
  have hp339 : 339 ≤ p := by
    have : (9 : Nat) + 33 * NC ≤ p := hp
    omega
  have h1 : carrier_zero_defaults (carrier_load input) =
      0 :: (List.replicate 9 0 ++ input.drop 9) := rfl
  have h2 : carrier_main_written newBytes input =
      List.replicate 9 0 ++ (newBytes ++ (List.replicate 9 0 ++ input.drop 9).drop
        (10 + newBytes.length - 1)) := by
    unfold carrier_main_written carrier_set_new_carriers
    rw [h1]
    have hsucc : 1 + DEFAULT_CARRIERS_MAX + newBytes.length =
        (10 + newBytes.length - 1) + 1 := by
      unfold DEFAULT_CARRIERS_MAX
      omega
    rw [hsucc, List.drop_succ_cons]
    have htake : (0 :: (List.replicate 9 0 ++ input.drop 9)).take
        (1 + DEFAULT_CARRIERS_MAX) = 0 :: List.replicate 9 0 := by
      rw [show (0 :: (List.replicate 9 0 ++ input.drop 9) : List Nat) =
            (0 :: List.replicate 9 0) ++ input.drop 9 from rfl]
      exact List.take_left' (by decide)
    rw [htake]
    rfl
  rw [h2, hNB330]
  have hdrop : (List.replicate 9 (0 : Nat) ++ input.drop 9).drop (10 + 330 - 1) =
      (input.drop 9).drop 330 := by
    have h99 : (10 : Nat) + 330 - 1 = (List.replicate 9 (0 : Nat)).length + 330 := by
      rw [List.length_replicate]
    rw [h99, List.drop_append]
  rw [hdrop]
  rw [List.getD_eq_getElem?_getD,
      List.getElem?_append_right (by rw [List.length_replicate]; omega),
      List.length_replicate,
      List.getElem?_append_right (by rw [hNB330]; omega), hNB330,
      List.getElem?_drop, List.getElem?_drop]
  have hidx : 9 + (330 + (p - 9 - 330)) = p := by omega
  rw [hidx, ← List.getD_eq_getElem?_getD]

/-- Witness for C9: NC = 10 carriers, S = 1 spare byte, an input record of 340
bytes of 0x07, 330 replacement-carrier bytes of 0x01, at spare offset 339. -/
theorem C9_spare_witness :
    (carrier_main_written (List.replicate 330 1) (List.replicate 340 7)).getD 339 0 =
      (List.replicate 340 7).getD 339 0 :=
  C9_spare_preserved 10 1 (List.replicate 330 1) (List.replicate 340 7) 339
    (by rw [List.length_replicate]; decide) (by norm_num)
    (by rw [List.length_replicate]; decide) (by decide)
